import Mathlib

/-!
File reconciler: `controllers/file_controller.go`

A shallow embedding of `countFiles`, `manageFiles` and
`FileReconciler.Reconcile`, together with the library calls they make
(`filepath.Walk`, `os.Create`, `client.Get`, `Status().Update`,
`client.IgnoreNotFound`), and the properties of the written specification.

Conventions of the embedding.

* Go `int` is a 64-bit signed integer: values are `Int`, and every
  arithmetic result is reduced with `wrapInt`.
* The operating system is a finite tree of directory entries (`FsNode`), a
  working directory, and an event trace recording every call that leaves
  the process.
* A path is its list of components plus a flag saying whether it is
  absolute; relative paths are resolved against the working directory.
* Logging (`log.Error`, `log.Info`) and printing (`fmt.Println`,
  `fmt.Printf`) do not change any state that a property reads and are left
  out. `defer file.Close()` releases a handle and does not change the set
  of directory entries; it is left out as well.
-/

namespace FileController

/-! ## Go integers -/

/-- Width of the Go `int` type on the 64-bit platforms the operator runs on. -/
def intBits : Nat := 64

/-- Smallest Go `int`. -/
def minInt : Int := -(2 ^ (intBits - 1))

/-- Largest Go `int`. -/
def maxInt : Int := 2 ^ (intBits - 1) - 1

/-- Two's complement reduction of a mathematical integer to a Go `int`. -/
def wrapInt (x : Int) : Int :=
  (x + 2 ^ (intBits - 1)) % 2 ^ intBits - 2 ^ (intBits - 1)

/-- Values a Go `int` can hold. -/
def isInt (x : Int) : Prop := minInt ≤ x ∧ x ≤ maxInt

instance (x : Int) : Decidable (isInt x) := by
  unfold isInt; exact inferInstance

/-! ## Errors -/

/-- Error numbers reported by the operating system. -/
inductive Errno where
  | ENOENT
  | EACCES
  | ENOTDIR
  | EISDIR
  | EBUSY
  deriving DecidableEq, Repr

/-- Reasons with which the API server rejects a request. -/
inductive ApiReason where
  | notFound
  | conflict
  | forbidden
  | timeout
  | internal
  deriving DecidableEq, Repr

/-- Values of the Go `error` interface that flow through this file (`nil` is
`Option.none`). -/
inductive Error where
  /-- The sentinel `filepath.SkipDir`. -/
  | skipDir
  /-- The sentinel `filepath.SkipAll`. -/
  | skipAll
  /-- An `*fs.PathError` coming from `os.Lstat`, a directory read or `os.Create`. -/
  | os (e : Errno)
  /-- An `*errors.StatusError` coming from the API client. -/
  | api (r : ApiReason)
  /-- The run-time failure of calling a method on a nil `os.FileInfo`. -/
  | nilFileInfo
  deriving DecidableEq, Repr

/-! ## The file system -/

mutual
/-- What `os.Lstat` and a directory read report for one path. -/
inductive FsNode where
  /-- The call `os.Lstat` fails on this path. -/
  | noStat (e : Errno)
  /-- Anything that is not a directory: regular file, symlink, device, ... -/
  | file
  /-- A directory whose entries cannot be read or searched. -/
  | dirErr (e : Errno)
  /-- A readable directory, its entries in the order a read returns them. -/
  | dir (writable : Bool) (entries : FsEntries)
/-- The named entries of a directory. -/
inductive FsEntries where
  | nil
  | cons (name : String) (node : FsNode) (rest : FsEntries)
end

/-- The part of `os.FileInfo` the program reads. -/
structure FileInfo where
  isDir : Bool
  deriving DecidableEq, Repr

/-- A path: `/a/b` is `⟨true, ["a", "b"]⟩`, and `filename` is `⟨false, ["filename"]⟩`. -/
structure Path where
  absolute : Bool
  parts : List String
  deriving DecidableEq, Repr

/-- Result of `os.Lstat` on a node that has already been located. -/
def FsNode.lstat : FsNode → Except Errno FileInfo
  | .noStat e => .error e
  | .file => .ok ⟨false⟩
  | .dirErr _ => .ok ⟨true⟩
  | .dir _ _ => .ok ⟨true⟩

/-- The entry called `name`, if the directory has one. -/
def FsEntries.find (name : String) : FsEntries → Option FsNode
  | .nil => none
  | .cons n node rest => if n = name then some node else rest.find name

/-- Follow `parts` downwards from a node. A missing component is reported the
way `os.Lstat` reports it. -/
def FsNode.lookup : FsNode → List String → FsNode
  | node, [] => node
  | .noStat e, _ :: _ => .noStat e
  | .file, _ :: _ => .noStat .ENOTDIR
  | .dirErr e, _ :: _ => .noStat e
  | .dir _ es, name :: rest =>
    match es.find name with
    | none => .noStat .ENOENT
    | some child => child.lookup rest

/-! ## `filepath.Walk` -/

/-- The Go type `filepath.WalkFunc`, with the variables the closure captures
passed as state. -/
abbrev WalkFunc (σ : Type) :=
  List String → Option FileInfo → Option Error → σ → σ × Option Error

mutual
/-- The visit of one entry: the `os.Lstat` of the caller followed, when it
succeeds, by `filepath.walk`. -/
def walk {σ : Type} (walkFn : WalkFunc σ) (path : List String) : FsNode → σ → σ × Option Error
  | .noStat e, s => walkFn path none (some (.os e)) s
  | .file, s => walkFn path (some ⟨false⟩) none s
  | .dirErr e, s => walkFn path (some ⟨true⟩) (some (.os e)) s
  | .dir _ es, s =>
    match walkFn path (some ⟨true⟩) none s with
    | (s1, some err1) => (s1, some err1)
    | (s1, none) => walkNames walkFn path es s1
/-- The loop `for _, name := range names` of `filepath.walk`. -/
def walkNames {σ : Type} (walkFn : WalkFunc σ) (path : List String) :
    FsEntries → σ → σ × Option Error
  | .nil, s => (s, none)
  | .cons name node rest, s =>
    match walk walkFn (path ++ [name]) node s with
    | (s1, none) => walkNames walkFn path rest s1
    | (s1, some err) =>
      match node.lstat with
      | .error _ =>
        if err ≠ .skipDir then (s1, some err) else walkNames walkFn path rest s1
      | .ok info =>
        if !info.isDir || err ≠ .skipDir then (s1, some err)
        else walkNames walkFn path rest s1
end

/-- The Go function `filepath.Walk`, on the node found at `root`. -/
def Walk {σ : Type} (root : List String) (node : FsNode) (walkFn : WalkFunc σ) (s : σ) :
    σ × Option Error :=
  match walk walkFn root node s with
  | (s1, some .skipDir) => (s1, none)
  | (s1, some .skipAll) => (s1, none)
  | r => r

/-! ## `countFiles` -/

/-- The closure passed to `filepath.Walk` in `countFiles`; the state is the
captured variable `fileCount`. -/
def countFilesFn : WalkFunc Int := fun _path info err fileCount =>
  match err with
  | some e => (fileCount, some e)
  | none =>
    match info with
    | none => (fileCount, some .nilFileInfo)
    | some i => if !i.isDir then (wrapInt (fileCount + 1), none) else (fileCount, none)

/-- The body of `countFiles` once `directoryPath` has been located. -/
def countFilesAt (root : List String) (node : FsNode) : Int × Option Error :=
  match Walk root node countFilesFn 0 with
  | (_, some err) => (0, some err)
  | (fileCount, none) => (fileCount, none)

/-! ## `os.Create` -/

mutual
/-- The tree after opening `parts` below a node with
`O_RDWR|O_CREATE|O_TRUNC`: an existing non-directory is truncated and stays
one entry, a missing last component becomes a new entry of its parent. -/
def FsNode.create : FsNode → List String → Except Errno FsNode
  | .noStat e, _ => .error e
  | .file, [] => .ok .file
  | .file, _ :: _ => .error .ENOTDIR
  | .dirErr _, [] => .error .EISDIR
  | .dirErr e, _ :: _ => .error e
  | .dir _ _, [] => .error .EISDIR
  | .dir w es, name :: rest =>
    match es.createIn w name rest with
    | .error e => .error e
    | .ok es1 => .ok (.dir w es1)
/-- The entries of a directory after opening `name/rest` in it. -/
def FsEntries.createIn : FsEntries → Bool → String → List String → Except Errno FsEntries
  | .nil, writable, name, rest =>
    match rest with
    | [] => if writable then .ok (.cons name .file .nil) else .error .EACCES
    | _ :: _ => .error .ENOENT
  | .cons n node tl, writable, name, rest =>
    if n = name then
      match node.create rest with
      | .error e => .error e
      | .ok node1 => .ok (.cons n node1 tl)
    else
      match tl.createIn writable name rest with
      | .error e => .error e
      | .ok tl1 => .ok (.cons n node tl1)
end

/-! ## The resource and the world -/

/-- Modelled from the spec: the resource type `filev1.File` of package
`api/v1`, which is not among the sources. Section 3 gives it a desired state
with `directoryPath` and `maxFiles`; the Go code compares `Spec.MaxFiles` with
an `int`, so it is an `int`. -/
structure FileSpec where
  directoryPath : Path
  maxFiles : Int
  deriving DecidableEq, Repr

/-- Modelled from the spec: the status of `filev1.File`, which is not among the
sources. Section 3 gives it the single field `numFiles`; the Go code assigns
an `int` to `Status.NumFiles`. -/
structure FileStatus where
  numFiles : Int
  deriving DecidableEq, Repr

/-- Modelled from the spec: the resource `filev1.File`, a desired state and
an observed state. -/
structure File where
  spec : FileSpec
  status : FileStatus
  deriving DecidableEq, Repr

/-- Calls that leave the process, and the entry of the two helpers, in the
order they happen. -/
inductive Event where
  /-- A call of `r.Get` for the named object. -/
  | get (name : String)
  /-- Entry of `countFiles`. -/
  | countFiles (directoryPath : Path)
  /-- Entry of `manageFiles`. -/
  | manageFiles (directoryPath : Path) (numFiles maxFiles : Int)
  /-- A call of `os.Create` and whether it succeeded. -/
  | create (name : Path) (ok : Bool)
  /-- A status update submitted to the store, and whether it was accepted. -/
  | statusUpdate (name : String) (numFiles : Int) (ok : Bool)
  deriving DecidableEq, Repr

/-- Everything outside the reconciler. -/
structure World where
  /-- The file system, from `/`. -/
  root : FsNode
  /-- Working directory of the process, as components below `/`. -/
  cwd : List String
  /-- The objects held by the resource store, by namespaced name. -/
  store : String → Option File
  /-- The failure, if any, with which the store answers the next `Get`. -/
  getErr : Option Error
  /-- The failure, if any, with which the store answers the next status update. -/
  updateErr : Option Error
  /-- Events so far, oldest first. -/
  trace : List Event

/-- Append one event to the trace. -/
def World.record (w : World) (ev : Event) : World :=
  { w with trace := w.trace ++ [ev] }

/-- Components of a path below `/`. -/
def World.resolve (w : World) (p : Path) : List String :=
  if p.absolute then p.parts else w.cwd ++ p.parts

/-- What the file system holds at a path. -/
def World.nodeAt (w : World) (p : Path) : FsNode :=
  w.root.lookup (w.resolve p)

/-- The Go call `os.Create(name)`; the returned handle is not modelled. -/
def osCreate (w : World) (name : Path) : Option Error × World :=
  match w.root.create (w.resolve name) with
  | .error e => (some (.os e), w.record (.create name false))
  | .ok root1 => (none, { w with root := root1 }.record (.create name true))

/-- The Go call `r.Get(ctx, name, file)`. -/
def clientGet (w : World) (name : String) : Except Error File × World :=
  let w1 := w.record (.get name)
  match w.getErr with
  | some err => (.error err, w1)
  | none =>
    match w.store name with
    | none => (.error (.api .notFound), w1)
    | some file => (.ok file, w1)

/-- The Go call `r.Status().Update(ctx, file)` for the object called `name`:
an accepted update replaces the stored status and nothing else; an object the
store does not hold is answered with NotFound. -/
def statusUpdate (w : World) (name : String) (file : File) : Option Error × World :=
  match w.updateErr with
  | some err => (some err, w.record (.statusUpdate name file.status.numFiles false))
  | none =>
    match w.store name with
    | none =>
      (some (.api .notFound), w.record (.statusUpdate name file.status.numFiles false))
    | some stored =>
      let store1 : String → Option File := fun k =>
        if k = name then some { stored with status := file.status } else w.store k
      (none, { w with store := store1 }.record (.statusUpdate name file.status.numFiles true))

/-- The controller-runtime helper `client.IgnoreNotFound`. -/
def ignoreNotFound (err : Error) : Option Error :=
  if err = .api .notFound then none else some err

/-! ## The functions of `file_controller.go` -/

/-- The Go function `countFiles`. -/
def countFiles (w : World) (directoryPath : Path) : (Int × Option Error) × World :=
  (countFilesAt directoryPath.parts (w.nodeAt directoryPath),
    w.record (.countFiles directoryPath))

/-- The loop `for i := 0; i < n; i++ { file, err := os.Create("filename"); ... }`
that both branches of `manageFiles` contain, for `n` iterations. -/
def createLoop : Nat → World → Option Error × World
  | 0, w => (none, w)
  | n + 1, w =>
    match osCreate w ⟨false, ["filename"]⟩ with
    | (some err, w1) => (some err, w1)
    | (none, w1) => createLoop n w1

/-- The Go function `manageFiles`. -/
def manageFiles (w : World) (directoryPath : Path) (numFiles maxFiles : Int) :
    Option Error × World :=
  let w0 := w.record (.manageFiles directoryPath numFiles maxFiles)
  let r1 :=
    if numFiles > maxFiles then
      let numToDelete := wrapInt (numFiles - maxFiles)
      createLoop numToDelete.toNat w0
    else (none, w0)
  match r1 with
  | (some err, w1) => (some err, w1)
  | (none, w1) =>
    if numFiles < maxFiles then
      let numToCreate := wrapInt (maxFiles - numFiles)
      createLoop numToCreate.toNat w1
    else (none, w1)

/-- The Go type `ctrl.Result`. -/
structure Result where
  requeue : Bool := false
  requeueAfter : Nat := 0
  deriving DecidableEq, Repr

/-- The Go type `ctrl.Request`. -/
structure Request where
  namespacedName : String
  deriving DecidableEq, Repr

/-- The Go method `FileReconciler.Reconcile`. -/
def Reconcile (w : World) (req : Request) : (Result × Option Error) × World :=
  match clientGet w req.namespacedName with
  | (.error err, w1) => (({}, ignoreNotFound err), w1)
  | (.ok file, w1) =>
    let directoryPath := file.spec.directoryPath
    let maxFiles := file.spec.maxFiles
    match countFiles w1 directoryPath with
    | ((_, some err), w2) => (({}, some err), w2)
    | ((numFiles, none), w2) =>
      if numFiles ≠ maxFiles then
        match manageFiles w2 directoryPath numFiles maxFiles with
        | (some err, w3) => (({}, some err), w3)
        | (none, w3) =>
          let file1 : File := { file with status := { numFiles := numFiles } }
          match statusUpdate w3 req.namespacedName file1 with
          | (some err, w4) => (({}, some err), w4)
          | (none, w4) => (({}, none), w4)
      else (({}, none), w2)

/-! ## Specification-side notions for the directory walk -/

mutual
/-- Number of non-directory entries at any depth below (and including) a node. -/
def FsNode.nonDirCount : FsNode → Nat
  | .noStat _ => 0
  | .file => 1
  | .dirErr _ => 0
  | .dir _ es => es.nonDirCount
/-- Number of non-directory entries at any depth in a list of entries. -/
def FsEntries.nonDirCount : FsEntries → Nat
  | .nil => 0
  | .cons _ node rest => node.nonDirCount + rest.nonDirCount
end

mutual
/-- No entry of the tree fails to be examined or read. -/
def FsNode.errorFree : FsNode → Bool
  | .noStat _ => false
  | .file => true
  | .dirErr _ => false
  | .dir _ es => es.errorFree
/-- No entry of the list fails to be examined or read. -/
def FsEntries.errorFree : FsEntries → Bool
  | .nil => true
  | .cons _ node rest => node.errorFree && rest.errorFree
end

/-- One call of the walk function: the arguments it receives. -/
structure Visit where
  path : List String
  info : Option FileInfo
  err : Option Error
  deriving DecidableEq, Repr

mutual
/-- The entries of a tree in the order `filepath.Walk` presents them, with
what it reports for each, when no call stops the walk. -/
def FsNode.visits (path : List String) : FsNode → List Visit
  | .noStat e => [⟨path, none, some (.os e)⟩]
  | .file => [⟨path, some ⟨false⟩, none⟩]
  | .dirErr e => [⟨path, some ⟨true⟩, some (.os e)⟩]
  | .dir _ es => ⟨path, some ⟨true⟩, none⟩ :: es.visits path
/-- The visits of the entries of a directory, in order. -/
def FsEntries.visits (path : List String) : FsEntries → List Visit
  | .nil => []
  | .cons name node rest => node.visits (path ++ [name]) ++ rest.visits path
end

/-- Run the closure of `countFiles` over a sequence of visits, stopping at the
first call that returns an error; the walk then returns that error. -/
def countVisits : List Visit → Int → Int × Option Error
  | [], fileCount => (fileCount, none)
  | v :: vs, fileCount =>
    match countFilesFn v.path v.info v.err fileCount with
    | (c1, none) => countVisits vs c1
    | (c1, some err) => (c1, some err)

/-- The visit presents a non-directory. -/
def Visit.isNonDir (v : Visit) : Bool :=
  match v.info with
  | some i => !i.isDir
  | none => false

/-- The visit reports no error and carries a file description. -/
def Visit.clean (v : Visit) : Bool :=
  v.err.isNone && v.info.isSome

/-- The visit is one `filepath.Walk` can make: it either is clean or reports
an operating system error. -/
def Visit.fromWalk (v : Visit) : Prop :=
  v.clean = true ∨ ∃ e, v.err = some (.os e)

/-! ## The stages of one pass -/

/-- The world after the fetch of a pass. -/
def afterGet (w : World) (req : Request) : World :=
  (clientGet w req.namespacedName).2

/-- The world after the measurement of a pass that fetched `file`. -/
def afterCount (w : World) (req : Request) (file : File) : World :=
  (countFiles (afterGet w req) file.spec.directoryPath).2

/-- The world after the correction of a pass that fetched `file` and
measured `numFiles`. -/
def afterManage (w : World) (req : Request) (file : File) (numFiles : Int) : World :=
  (manageFiles (afterCount w req file) file.spec.directoryPath numFiles file.spec.maxFiles).2

/-- The object a pass submits in its status update. -/
def withNumFiles (file : File) (numFiles : Int) : File :=
  { file with status := { numFiles := numFiles } }

/-- The observed count the store holds for an object. -/
def World.observed (w : World) (name : String) : Option Int :=
  (w.store name).map (fun f => f.status.numFiles)

/-- The events a world has recorded after the earlier world `w0`. -/
def World.since (w w0 : World) : List Event :=
  w.trace.drop w0.trace.length

/-! ## Concrete worlds -/

/-- The name `filename` that `manageFiles` passes to `os.Create`. -/
def fixedName : Path := ⟨false, ["filename"]⟩

/-- A file system in which `/data` holds `a`, `b` and `sub/c`, and `/app` is empty. -/
def sampleRoot : FsNode :=
  .dir true
    (.cons "data"
      (.dir true (.cons "a" .file (.cons "b" .file
        (.cons "sub" (.dir true (.cons "c" .file .nil)) .nil))))
      (.cons "app" (.dir true .nil) .nil))

/-- The same file system with an unreadable directory `/data/locked`. -/
def lockedRoot : FsNode :=
  .dir true
    (.cons "data"
      (.dir true (.cons "a" .file (.cons "b" .file
        (.cons "locked" (.dirErr .EACCES) (.cons "z" .file .nil)))))
      .nil)

/-- The directory `/data`. -/
def dataPath : Path := ⟨true, ["data"]⟩

/-- The request of the sample passes. -/
def sampleReq : Request := ⟨"default/sample"⟩

/-- A world over `sampleRoot` whose store holds one object for `/data`. -/
def sampleWorld (cwd : List String) (maxFiles observed : Int) (updateErr : Option Error) :
    World where
  root := sampleRoot
  cwd := cwd
  store := fun k =>
    if k = "default/sample" then some ⟨⟨dataPath, maxFiles⟩, ⟨observed⟩⟩ else none
  getErr := none
  updateErr := updateErr
  trace := []

/-- A world whose store does not hold the requested object. -/
def emptyStoreWorld : World where
  root := sampleRoot
  cwd := ["app"]
  store := fun _ => none
  getErr := none
  updateErr := none
  trace := []

/-- A world over `lockedRoot`. -/
def lockedWorld : World where
  root := lockedRoot
  cwd := ["data"]
  store := fun _ => none
  getErr := none
  updateErr := none
  trace := []

/-! # Properties -/

/-! ## Go integers: facts -/

theorem wrapInt_of_isInt {x : Int} (h : isInt x) : wrapInt x = x := by
  unfold isInt minInt maxInt intBits at h
  unfold wrapInt intBits
  norm_num at h ⊢
  omega

/-! ## The walk of `countFiles` is a run over the visits -/

theorem countVisits_append (a b : List Visit) (c : Int) :
    countVisits (a ++ b) c =
      match countVisits a c with
      | (c1, none) => countVisits b c1
      | (c1, some err) => (c1, some err) := by
  induction a generalizing c with
  | nil => simp [countVisits]
  | cons v vs ih =>
    simp only [List.cons_append, countVisits]
    cases h : countFilesFn v.path v.info v.err c with
    | mk c1 r =>
      cases r with
      | none => simpa using ih c1
      | some err => simp

theorem countFilesFn_err_os {v : Visit} (hv : v.fromWalk) {c c1 : Int} {err : Error}
    (h : countFilesFn v.path v.info v.err c = (c1, some err)) : ∃ e, err = .os e := by
  rcases v with ⟨path, info, verr⟩
  rcases hv with hc | ⟨e, he⟩
  · simp only [Visit.clean, Bool.and_eq_true, Option.isNone_iff_eq_none,
      Option.isSome_iff_exists] at hc
    obtain ⟨h1, i, h2⟩ := hc
    subst h1; subst h2
    simp only [countFilesFn] at h
    split at h <;> simp at h
  · simp only at he
    subst he
    simp only [countFilesFn, Prod.mk.injEq, Option.some.injEq] at h
    exact ⟨e, h.2.symm⟩

theorem countVisits_err_os {vs : List Visit} (hvs : ∀ v ∈ vs, v.fromWalk) {c c1 : Int}
    {err : Error} (h : countVisits vs c = (c1, some err)) : ∃ e, err = .os e := by
  induction vs generalizing c with
  | nil => simp [countVisits] at h
  | cons v vs ih =>
    simp only [countVisits] at h
    cases h1 : countFilesFn v.path v.info v.err c with
    | mk c2 r =>
      rw [h1] at h
      cases r with
      | none => exact ih (fun u hu => hvs u (List.mem_cons_of_mem _ hu)) h
      | some e2 =>
        simp only [Prod.mk.injEq, Option.some.injEq] at h
        obtain ⟨e, he⟩ := countFilesFn_err_os (hvs v (List.mem_cons_self _ _)) h1
        exact ⟨e, by rw [← h.2, he]⟩

mutual
theorem node_visits_fromWalk : ∀ (t : FsNode) (path : List String),
    ∀ v ∈ t.visits path, v.fromWalk
  | .noStat e, path => by
    intro v hv
    simp only [FsNode.visits, List.mem_singleton] at hv
    subst hv
    exact Or.inr ⟨e, rfl⟩
  | .file, path => by
    intro v hv
    simp only [FsNode.visits, List.mem_singleton] at hv
    subst hv
    exact Or.inl rfl
  | .dirErr e, path => by
    intro v hv
    simp only [FsNode.visits, List.mem_singleton] at hv
    subst hv
    exact Or.inr ⟨e, rfl⟩
  | .dir _ es, path => by
    intro v hv
    simp only [FsNode.visits, List.mem_cons] at hv
    rcases hv with hv | hv
    · subst hv
      exact Or.inl rfl
    · exact entries_visits_fromWalk es path v hv
theorem entries_visits_fromWalk : ∀ (es : FsEntries) (path : List String),
    ∀ v ∈ es.visits path, v.fromWalk
  | .nil, path => by
    intro v hv
    simp [FsEntries.visits] at hv
  | .cons name node rest, path => by
    intro v hv
    simp only [FsEntries.visits, List.mem_append] at hv
    rcases hv with hv | hv
    · exact node_visits_fromWalk node _ v hv
    · exact entries_visits_fromWalk rest path v hv
end

mutual
theorem walk_countFilesFn : ∀ (t : FsNode) (path : List String) (c : Int),
    walk countFilesFn path t c = countVisits (t.visits path) c
  | .noStat e, path, c => by
    simp [walk, FsNode.visits, countVisits, countFilesFn]
  | .file, path, c => by
    simp [walk, FsNode.visits, countVisits, countFilesFn]
  | .dirErr e, path, c => by
    simp [walk, FsNode.visits, countVisits, countFilesFn]
  | .dir _ es, path, c => by
    simp only [walk, FsNode.visits, countVisits]
    have h : countFilesFn path (some ⟨true⟩) none c = (c, none) := by
      simp [countFilesFn]
    rw [h]
    exact walkNames_countFilesFn es path c
theorem walkNames_countFilesFn : ∀ (es : FsEntries) (path : List String) (c : Int),
    walkNames countFilesFn path es c = countVisits (es.visits path) c
  | .nil, path, c => by
    simp [walkNames, FsEntries.visits, countVisits]
  | .cons name node rest, path, c => by
    simp only [walkNames, FsEntries.visits]
    rw [countVisits_append, walk_countFilesFn node (path ++ [name]) c]
    cases h : countVisits (node.visits (path ++ [name])) c with
    | mk c1 r =>
      cases r with
      | none => exact walkNames_countFilesFn rest path c1
      | some err =>
        obtain ⟨e, he⟩ := countVisits_err_os (node_visits_fromWalk node _) h
        subst he
        cases node.lstat <;> simp
end

theorem Walk_countFilesFn (root : List String) (t : FsNode) (c : Int) :
    Walk root t countFilesFn c = countVisits (t.visits root) c := by
  unfold Walk
  rw [walk_countFilesFn]
  cases h : countVisits (t.visits root) c with
  | mk c1 r =>
    cases r with
    | none => rfl
    | some err =>
      obtain ⟨e, he⟩ := countVisits_err_os (node_visits_fromWalk t _) h
      subst he
      rfl

/-! ## Counting -/

theorem countVisits_clean (vs : List Visit) (hvs : ∀ v ∈ vs, v.clean = true) (c : Int)
    (h0 : 0 ≤ c) (hmax : c + (vs.countP Visit.isNonDir : Nat) ≤ maxInt) :
    countVisits vs c = (c + (vs.countP Visit.isNonDir : Nat), none) := by
  induction vs generalizing c with
  | nil => simp [countVisits]
  | cons v vs ih =>
    have hv := hvs v (List.mem_cons_self _ _)
    have hrest : ∀ u ∈ vs, u.clean = true := fun u hu => hvs u (List.mem_cons_of_mem _ hu)
    rcases v with ⟨path, info, verr⟩
    simp only [Visit.clean, Bool.and_eq_true, Option.isNone_iff_eq_none,
      Option.isSome_iff_exists] at hv
    obtain ⟨h1, i, h2⟩ := hv
    subst h1; subst h2
    rcases i with ⟨d⟩
    cases d with
    | true =>
      have hc : List.countP Visit.isNonDir (⟨path, some ⟨true⟩, none⟩ :: vs)
          = List.countP Visit.isNonDir vs := by
        simp [List.countP_cons, Visit.isNonDir]
      rw [hc] at hmax ⊢
      simp only [countVisits, countFilesFn]
      exact ih hrest c h0 hmax
    | false =>
      have hc : List.countP Visit.isNonDir (⟨path, some ⟨false⟩, none⟩ :: vs)
          = List.countP Visit.isNonDir vs + 1 := by
        simp [List.countP_cons, Visit.isNonDir]
      rw [hc] at hmax ⊢
      push_cast at hmax ⊢
      have hw : wrapInt (c + 1) = c + 1 := by
        apply wrapInt_of_isInt
        unfold isInt minInt maxInt intBits
        unfold maxInt intBits at hmax
        norm_num at hmax ⊢
        omega
      simp only [countVisits, countFilesFn, Bool.not_false, if_true, hw]
      rw [ih hrest (c + 1) (by omega) (by omega)]
      simp only [Prod.mk.injEq, and_true]
      omega

mutual
theorem node_visits_clean : ∀ (t : FsNode) (path : List String),
    t.errorFree = true → ∀ v ∈ t.visits path, v.clean = true
  | .noStat e, path => by simp [FsNode.errorFree]
  | .file, path => by simp [FsNode.visits, Visit.clean]
  | .dirErr e, path => by simp [FsNode.errorFree]
  | .dir _ es, path => by
    intro h v hv
    simp only [FsNode.visits, List.mem_cons] at hv
    simp only [FsNode.errorFree] at h
    rcases hv with hv | hv
    · subst hv
      rfl
    · exact entries_visits_clean es path h v hv
theorem entries_visits_clean : ∀ (es : FsEntries) (path : List String),
    es.errorFree = true → ∀ v ∈ es.visits path, v.clean = true
  | .nil, path => by simp [FsEntries.visits]
  | .cons name node rest, path => by
    intro h v hv
    simp only [FsEntries.visits, List.mem_append] at hv
    simp only [FsEntries.errorFree, Bool.and_eq_true] at h
    rcases hv with hv | hv
    · exact node_visits_clean node _ h.1 v hv
    · exact entries_visits_clean rest path h.2 v hv
end

mutual
theorem node_countP_visits : ∀ (t : FsNode) (path : List String),
    t.errorFree = true → (t.visits path).countP Visit.isNonDir = t.nonDirCount
  | .noStat e, path => by simp [FsNode.errorFree]
  | .file, path => by simp [FsNode.visits, FsNode.nonDirCount, Visit.isNonDir]
  | .dirErr e, path => by simp [FsNode.errorFree]
  | .dir _ es, path => by
    intro h
    simp only [FsNode.errorFree] at h
    simp only [FsNode.visits, FsNode.nonDirCount, List.countP_cons]
    rw [entries_countP_visits es path h]
    simp [Visit.isNonDir]
theorem entries_countP_visits : ∀ (es : FsEntries) (path : List String),
    es.errorFree = true → (es.visits path).countP Visit.isNonDir = es.nonDirCount
  | .nil, path => by simp [FsEntries.visits, FsEntries.nonDirCount]
  | .cons name node rest, path => by
    intro h
    simp only [FsEntries.errorFree, Bool.and_eq_true] at h
    simp only [FsEntries.visits, FsEntries.nonDirCount, List.countP_append]
    rw [node_countP_visits node _ h.1, entries_countP_visits rest path h.2]
end

/-- Any run of the closure over a rearrangement of the visits of an error-free
tree ends with the number of non-directories and no error. -/
theorem countVisits_perm_errorFree (t : FsNode) (root : List String)
    (hfree : t.errorFree = true) (hk : (t.nonDirCount : Int) ≤ maxInt)
    (vs : List Visit) (hperm : vs.Perm (t.visits root)) :
    countVisits vs 0 = ((t.nonDirCount : Int), none) := by
  have hclean : ∀ v ∈ vs, v.clean = true := fun v hv =>
    node_visits_clean t root hfree v (hperm.mem_iff.mp hv)
  have hcount : vs.countP Visit.isNonDir = t.nonDirCount := by
    rw [hperm.countP_eq, node_countP_visits t root hfree]
  have := countVisits_clean vs hclean 0 (le_refl 0) (by rw [hcount]; simpa using hk)
  rw [this, hcount]
  simp

theorem countFilesAt_errorFree (t : FsNode) (root : List String)
    (hfree : t.errorFree = true) (hk : (t.nonDirCount : Int) ≤ maxInt) :
    countFilesAt root t = ((t.nonDirCount : Int), none) := by
  unfold countFilesAt
  rw [Walk_countFilesFn, countVisits_perm_errorFree t root hfree hk _ (List.Perm.refl _)]

/-- A run that meets an error after clean visits stops with that error. -/
theorem countVisits_first_error (pre post : List Visit) (v : Visit) (e : Error)
    (hpre : ∀ u ∈ pre, u.clean = true) (hv : v.err = some e) (c : Int) :
    ∃ c1, countVisits (pre ++ v :: post) c = (c1, some e) := by
  induction pre generalizing c with
  | nil =>
    rcases v with ⟨path, info, verr⟩
    simp only at hv
    subst hv
    exact ⟨c, by simp [countVisits, countFilesFn]⟩
  | cons u us ih =>
    have hu := hpre u (List.mem_cons_self _ _)
    rcases u with ⟨path, info, uerr⟩
    simp only [Visit.clean, Bool.and_eq_true, Option.isNone_iff_eq_none,
      Option.isSome_iff_exists] at hu
    obtain ⟨h1, i, h2⟩ := hu
    subst h1; subst h2
    have hrest : ∀ x ∈ us, x.clean = true := fun x hx => hpre x (List.mem_cons_of_mem _ hx)
    simp only [List.cons_append, countVisits, countFilesFn]
    by_cases hd : (!i.isDir) = true
    · simp only [hd, if_true]
      exact ih hrest _
    · simp only [hd, if_false]
      exact ih hrest _

theorem countFilesAt_first_error (t : FsNode) (root : List String)
    (pre post : List Visit) (v : Visit) (e : Error)
    (hsplit : t.visits root = pre ++ v :: post)
    (hpre : ∀ u ∈ pre, u.clean = true) (hv : v.err = some e) :
    countFilesAt root t = (0, some e) := by
  unfold countFilesAt
  rw [Walk_countFilesFn, hsplit]
  obtain ⟨c1, h⟩ := countVisits_first_error pre post v e hpre hv 0
  rw [h]

/-! ## What each call does to the world -/

theorem clientGet_world (w : World) (name : String) :
    (clientGet w name).2 = w.record (.get name) := by
  unfold clientGet
  cases w.getErr with
  | some err => rfl
  | none => cases w.store name <;> rfl

theorem countFiles_world (w : World) (directoryPath : Path) :
    (countFiles w directoryPath).2 = w.record (.countFiles directoryPath) := rfl

theorem osCreate_frame (w : World) (name : Path) :
    (osCreate w name).2.store = w.store ∧ (osCreate w name).2.cwd = w.cwd ∧
      (osCreate w name).2.getErr = w.getErr ∧ (osCreate w name).2.updateErr = w.updateErr := by
  unfold osCreate
  cases w.root.create (w.resolve name) <;> simp [World.record]

theorem createLoop_frame (n : Nat) (w : World) :
    (createLoop n w).2.store = w.store ∧ (createLoop n w).2.cwd = w.cwd ∧
      (createLoop n w).2.getErr = w.getErr ∧ (createLoop n w).2.updateErr = w.updateErr := by
  induction n generalizing w with
  | zero => simp [createLoop]
  | succ n ih =>
    simp only [createLoop]
    have h := osCreate_frame w ⟨false, ["filename"]⟩
    rcases hc : osCreate w ⟨false, ["filename"]⟩ with ⟨e, w1⟩
    rw [hc] at h
    cases e with
    | some err => exact h
    | none =>
      simp only at h ⊢
      have h2 := ih w1
      exact ⟨h2.1.trans h.1, h2.2.1.trans h.2.1, h2.2.2.1.trans h.2.2.1,
        h2.2.2.2.trans h.2.2.2⟩

theorem manageFiles_frame (w : World) (directoryPath : Path) (numFiles maxFiles : Int) :
    (manageFiles w directoryPath numFiles maxFiles).2.store = w.store ∧
      (manageFiles w directoryPath numFiles maxFiles).2.cwd = w.cwd ∧
      (manageFiles w directoryPath numFiles maxFiles).2.getErr = w.getErr ∧
      (manageFiles w directoryPath numFiles maxFiles).2.updateErr = w.updateErr := by
  unfold manageFiles
  simp only
  by_cases h1 : numFiles > maxFiles
  · have h2 : ¬ numFiles < maxFiles := by omega
    simp only [h1, if_true, h2, if_false]
    have h := createLoop_frame (wrapInt (numFiles - maxFiles)).toNat
      (w.record (.manageFiles directoryPath numFiles maxFiles))
    rcases hc : createLoop (wrapInt (numFiles - maxFiles)).toNat
      (w.record (.manageFiles directoryPath numFiles maxFiles)) with ⟨e, w1⟩
    rw [hc] at h
    cases e <;> exact h
  · simp only [h1, if_false]
    by_cases h2 : numFiles < maxFiles
    · simp only [h2, if_true]
      exact createLoop_frame _ _
    · simp only [h2, if_false]
      simp [World.record]

/-! ## One pass of `Reconcile`, branch by branch -/

theorem Reconcile_get_error (w : World) (req : Request) (err : Error)
    (hget : (clientGet w req.namespacedName).1 = .error err) :
    Reconcile w req = (({}, ignoreNotFound err), afterGet w req) := by
  unfold afterGet
  unfold Reconcile
  rcases hg : clientGet w req.namespacedName with ⟨r, w1⟩
  rw [hg] at hget
  simp only at hget
  subst hget
  rfl

theorem Reconcile_count_error (w : World) (req : Request) (file : File) (c : Int)
    (err : Error)
    (hget : (clientGet w req.namespacedName).1 = .ok file)
    (hcount : (countFiles (afterGet w req) file.spec.directoryPath).1 = (c, some err)) :
    Reconcile w req = (({}, some err), afterCount w req file) := by
  unfold afterCount afterGet at *
  unfold Reconcile
  rcases hg : clientGet w req.namespacedName with ⟨r, w1⟩
  rw [hg] at hget hcount
  simp only at hget hcount
  subst hget
  simp only
  rcases hc : countFiles w1 file.spec.directoryPath with ⟨⟨c2, ce⟩, w2⟩
  rw [hc] at hcount
  simp only [Prod.mk.injEq] at hcount
  obtain ⟨h1, h2⟩ := hcount
  subst h1; subst h2
  rfl

theorem Reconcile_equal (w : World) (req : Request) (file : File)
    (hget : (clientGet w req.namespacedName).1 = .ok file)
    (hcount : (countFiles (afterGet w req) file.spec.directoryPath).1 =
      (file.spec.maxFiles, none)) :
    Reconcile w req = (({}, none), afterCount w req file) := by
  unfold afterCount afterGet at *
  unfold Reconcile
  rcases hg : clientGet w req.namespacedName with ⟨r, w1⟩
  rw [hg] at hget hcount
  simp only at hget hcount
  subst hget
  simp only
  rcases hc : countFiles w1 file.spec.directoryPath with ⟨⟨c2, ce⟩, w2⟩
  rw [hc] at hcount
  simp only [Prod.mk.injEq] at hcount
  obtain ⟨h1, h2⟩ := hcount
  subst h1; subst h2
  simp

theorem Reconcile_manage_error (w : World) (req : Request) (file : File) (numFiles : Int)
    (err : Error)
    (hget : (clientGet w req.namespacedName).1 = .ok file)
    (hcount : (countFiles (afterGet w req) file.spec.directoryPath).1 = (numFiles, none))
    (hne : numFiles ≠ file.spec.maxFiles)
    (hmanage : (manageFiles (afterCount w req file) file.spec.directoryPath numFiles
      file.spec.maxFiles).1 = some err) :
    Reconcile w req = (({}, some err), afterManage w req file numFiles) := by
  unfold afterManage afterCount afterGet at *
  unfold Reconcile
  rcases hg : clientGet w req.namespacedName with ⟨r, w1⟩
  rw [hg] at hget hcount hmanage
  simp only at hget hcount hmanage
  subst hget
  simp only
  rcases hc : countFiles w1 file.spec.directoryPath with ⟨⟨c, ce⟩, w2⟩
  rw [hc] at hcount hmanage
  simp only [Prod.mk.injEq] at hcount hmanage
  obtain ⟨h1, h2⟩ := hcount
  subst h1; subst h2
  simp only [ne_eq, hne, not_false_eq_true, if_true]
  rcases hm : manageFiles w2 file.spec.directoryPath c file.spec.maxFiles with ⟨me, w3⟩
  rw [hm] at hmanage
  simp only at hmanage
  subst hmanage
  rfl

theorem Reconcile_drift_ok (w : World) (req : Request) (file : File) (numFiles : Int)
    (hget : (clientGet w req.namespacedName).1 = .ok file)
    (hcount : (countFiles (afterGet w req) file.spec.directoryPath).1 = (numFiles, none))
    (hne : numFiles ≠ file.spec.maxFiles)
    (hmanage : (manageFiles (afterCount w req file) file.spec.directoryPath numFiles
      file.spec.maxFiles).1 = none) :
    Reconcile w req =
      (({}, (statusUpdate (afterManage w req file numFiles) req.namespacedName
          (withNumFiles file numFiles)).1),
        (statusUpdate (afterManage w req file numFiles) req.namespacedName
          (withNumFiles file numFiles)).2) := by
  unfold afterManage afterCount afterGet at *
  unfold Reconcile
  rcases hg : clientGet w req.namespacedName with ⟨r, w1⟩
  rw [hg] at hget hcount hmanage
  simp only at hget hcount hmanage
  subst hget
  simp only
  rcases hc : countFiles w1 file.spec.directoryPath with ⟨⟨c, ce⟩, w2⟩
  rw [hc] at hcount hmanage
  simp only [Prod.mk.injEq] at hcount hmanage
  obtain ⟨h1, h2⟩ := hcount
  subst h1; subst h2
  simp only [ne_eq, hne, not_false_eq_true, if_true]
  rcases hm : manageFiles w2 file.spec.directoryPath c file.spec.maxFiles with ⟨me, w3⟩
  rw [hm] at hmanage
  simp only at hmanage
  subst hmanage
  simp only [withNumFiles]
  rcases hu : statusUpdate w3 req.namespacedName { spec := file.spec, status := { numFiles := c } }
    with ⟨ue, w4⟩
  cases ue <;> rfl

theorem afterManage_frame (w : World) (req : Request) (file : File) (numFiles : Int) :
    (afterManage w req file numFiles).store = w.store ∧
      (afterManage w req file numFiles).updateErr = w.updateErr := by
  unfold afterManage afterCount afterGet
  have h := manageFiles_frame
    (countFiles (clientGet w req.namespacedName).2 file.spec.directoryPath).2
    file.spec.directoryPath numFiles file.spec.maxFiles
  rw [countFiles_world, clientGet_world] at h ⊢
  exact ⟨h.1, h.2.2.2⟩

/-! ## Traces -/

theorem since_append (w0 w : World) (l : List Event) (h : w.trace = w0.trace ++ l) :
    w.since w0 = l := by
  unfold World.since
  rw [h, List.drop_left]

theorem statusUpdate_fs (w : World) (name : String) (file : File) :
    (statusUpdate w name file).2.root = w.root ∧ (statusUpdate w name file).2.cwd = w.cwd := by
  unfold statusUpdate
  cases w.updateErr with
  | some err => simp [World.record]
  | none => cases w.store name <;> simp [World.record]

theorem statusUpdate_rejected (w : World) (name : String) (file : File) (err : Error)
    (h : (statusUpdate w name file).1 = some err) :
    (statusUpdate w name file).2.store = w.store ∧
      (statusUpdate w name file).2.trace =
        w.trace ++ [.statusUpdate name file.status.numFiles false] := by
  unfold statusUpdate at h ⊢
  cases hu : w.updateErr with
  | some e2 => simp [World.record]
  | none =>
    rw [hu] at h
    cases hs : w.store name with
    | none => simp [World.record]
    | some stored =>
      rw [hs] at h
      simp at h

theorem statusUpdate_accepted (w : World) (name : String) (file : File)
    (h : (statusUpdate w name file).1 = none) :
    (statusUpdate w name file).2.observed name = some file.status.numFiles ∧
      (statusUpdate w name file).2.trace =
        w.trace ++ [.statusUpdate name file.status.numFiles true] := by
  unfold statusUpdate at h ⊢
  cases hu : w.updateErr with
  | some e2 =>
    rw [hu] at h
    simp at h
  | none =>
    rw [hu] at h
    cases hs : w.store name with
    | none =>
      rw [hs] at h
      simp at h
    | some stored => simp [World.record, World.observed]

theorem osCreate_trace (w : World) (name : Path) :
    (osCreate w name).2.trace = w.trace ++ [.create name ((osCreate w name).1).isNone] := by
  unfold osCreate
  cases w.root.create (w.resolve name) <;> simp [World.record]

theorem createLoop_trace (n : Nat) (w : World) :
    ((createLoop n w).1 = none ∧
        (createLoop n w).2.trace = w.trace ++ List.replicate n (.create fixedName true)) ∨
      (∃ l, (createLoop n w).2.trace = w.trace ++ l ∧ Event.create fixedName false ∈ l) := by
  induction n generalizing w with
  | zero => exact Or.inl (by simp [createLoop])
  | succ n ih =>
    simp only [createLoop]
    have ht := osCreate_trace w ⟨false, ["filename"]⟩
    rcases hc : osCreate w ⟨false, ["filename"]⟩ with ⟨e, w1⟩
    rw [hc] at ht
    simp only at ht
    cases e with
    | some err =>
      refine Or.inr ⟨[.create fixedName false], ?_, by simp⟩
      simpa [fixedName] using ht
    | none =>
      simp only [Option.isNone_none] at ht
      rcases ih w1 with ⟨h1, h2⟩ | ⟨l, h1, h2⟩
      · refine Or.inl ⟨h1, ?_⟩
        rw [h2, ht, List.replicate_succ, List.append_assoc]
        rfl
      · refine Or.inr ⟨.create fixedName true :: l, ?_, List.mem_cons_of_mem _ h2⟩
        rw [h1, ht, List.append_assoc]
        rfl

theorem manageFiles_trace (w : World) (directoryPath : Path) (numFiles maxFiles : Int)
    (hd : ((numFiles - maxFiles).natAbs : Int) ≤ maxInt) :
    ((manageFiles w directoryPath numFiles maxFiles).1 = none ∧
        (manageFiles w directoryPath numFiles maxFiles).2.trace =
          w.trace ++ .manageFiles directoryPath numFiles maxFiles ::
            List.replicate (numFiles - maxFiles).natAbs (.create fixedName true)) ∨
      (∃ l, (manageFiles w directoryPath numFiles maxFiles).2.trace = w.trace ++ l ∧
        Event.create fixedName false ∈ l) := by
  have hwrap : ∀ x : Int, 0 ≤ x → x ≤ maxInt → (wrapInt x).toNat = x.natAbs := by
    intro x h0 hx
    rw [wrapInt_of_isInt]
    · omega
    · unfold isInt minInt
      unfold maxInt intBits at hx
      unfold maxInt intBits
      norm_num at hx ⊢
      omega
  unfold manageFiles
  simp only
  by_cases h1 : numFiles > maxFiles
  · have h2 : ¬ numFiles < maxFiles := by omega
    simp only [h1, if_true, h2, if_false]
    have hn : (wrapInt (numFiles - maxFiles)).toNat = (numFiles - maxFiles).natAbs :=
      hwrap _ (by omega) (by omega)
    rw [hn]
    rcases createLoop_trace (numFiles - maxFiles).natAbs
      (w.record (.manageFiles directoryPath numFiles maxFiles)) with ⟨h3, h4⟩ | ⟨l, h3, h4⟩
    · left
      rcases hc : createLoop (numFiles - maxFiles).natAbs
        (w.record (.manageFiles directoryPath numFiles maxFiles)) with ⟨e, w1⟩
      rw [hc] at h3 h4
      simp only at h3 h4
      subst h3
      simp only [true_and]
      rw [h4]
      simp [World.record]
    · right
      rcases hc : createLoop (numFiles - maxFiles).natAbs
        (w.record (.manageFiles directoryPath numFiles maxFiles)) with ⟨e, w1⟩
      rw [hc] at h3
      simp only at h3
      refine ⟨.manageFiles directoryPath numFiles maxFiles :: l, ?_, List.mem_cons_of_mem _ h4⟩
      cases e <;> simp only [h3] <;> simp [World.record]
  · simp only [h1, if_false]
    by_cases h2 : numFiles < maxFiles
    · simp only [h2, if_true]
      have hn : (wrapInt (maxFiles - numFiles)).toNat = (numFiles - maxFiles).natAbs := by
        rw [hwrap _ (by omega) (by omega)]
        omega
      rw [hn]
      rcases createLoop_trace (numFiles - maxFiles).natAbs
        (w.record (.manageFiles directoryPath numFiles maxFiles)) with ⟨h3, h4⟩ | ⟨l, h3, h4⟩
      · left
        refine ⟨h3, ?_⟩
        rw [h4]
        simp [World.record]
      · right
        refine ⟨.manageFiles directoryPath numFiles maxFiles :: l, ?_,
          List.mem_cons_of_mem _ h4⟩
        rw [h3]
        simp [World.record]
    · simp only [h2, if_false]
      left
      have h0 : numFiles - maxFiles = 0 := by omega
      simp [World.record, h0]

/-! ## Every failing walk has a first failing visit -/

theorem exists_first_unclean (vs : List Visit) (h : ∃ v ∈ vs, v.clean = false) :
    ∃ pre v post, vs = pre ++ v :: post ∧ (∀ u ∈ pre, u.clean = true) ∧ v.clean = false := by
  induction vs with
  | nil =>
    obtain ⟨v, hv, _⟩ := h
    cases hv
  | cons x xs ih =>
    by_cases hx : x.clean = true
    · have h2 : ∃ v ∈ xs, v.clean = false := by
        obtain ⟨v, hv, hc⟩ := h
        rcases List.mem_cons.mp hv with hv | hv
        · subst hv
          rw [hx] at hc
          cases hc
        · exact ⟨v, hv, hc⟩
      obtain ⟨pre, v, post, h3, h4, h5⟩ := ih h2
      refine ⟨x :: pre, v, post, by rw [h3]; rfl, ?_, h5⟩
      intro u hu
      rcases List.mem_cons.mp hu with hu | hu
      · subst hu; exact hx
      · exact h4 u hu
    · exact ⟨[], x, xs, rfl, by simp, by simpa using hx⟩

mutual
theorem node_exists_unclean : ∀ (t : FsNode) (path : List String),
    t.errorFree = false → ∃ v ∈ t.visits path, v.clean = false
  | .noStat e, path => fun _ => ⟨_, List.mem_singleton.mpr rfl, rfl⟩
  | .file, path => by simp [FsNode.errorFree]
  | .dirErr e, path => fun _ => ⟨_, List.mem_singleton.mpr rfl, rfl⟩
  | .dir _ es, path => by
    intro h
    simp only [FsNode.errorFree] at h
    obtain ⟨v, hv, hc⟩ := entries_exists_unclean es path h
    exact ⟨v, by simp only [FsNode.visits]; exact List.mem_cons_of_mem _ hv, hc⟩
theorem entries_exists_unclean : ∀ (es : FsEntries) (path : List String),
    es.errorFree = false → ∃ v ∈ es.visits path, v.clean = false
  | .nil, path => by simp [FsEntries.errorFree]
  | .cons name node rest, path => by
    intro h
    simp only [FsEntries.errorFree, Bool.and_eq_false_iff] at h
    simp only [FsEntries.visits, List.mem_append]
    rcases h with h | h
    · obtain ⟨v, hv, hc⟩ := node_exists_unclean node _ h
      exact ⟨v, Or.inl hv, hc⟩
    · obtain ⟨v, hv, hc⟩ := entries_exists_unclean rest path h
      exact ⟨v, Or.inr hv, hc⟩
end

/-- A tree in which some entry cannot be examined or read makes `countFiles`
return 0 and the error of the first such entry in walk order. -/
theorem countFilesAt_not_errorFree (t : FsNode) (root : List String)
    (h : t.errorFree = false) :
    ∃ pre v post e, t.visits root = pre ++ v :: post ∧ (∀ u ∈ pre, u.clean = true) ∧
      v.err = some (.os e) ∧ countFilesAt root t = (0, some (.os e)) := by
  obtain ⟨pre, v, post, h1, h2, h3⟩ :=
    exists_first_unclean (t.visits root) (node_exists_unclean t root h)
  have hv : v ∈ t.visits root := by rw [h1]; simp
  rcases node_visits_fromWalk t root v hv with hc | ⟨e, he⟩
  · rw [h3] at hc
    cases hc
  · exact ⟨pre, v, post, e, h1, h2, he, countFilesAt_first_error t root pre post v _ h1 h2 he⟩

/-! ## The directory counter -/

/-- C1: when the tree at `directoryPath` holds `k` non-directory entries at any
depth and nothing in it fails to be examined or read, `countFiles` returns
`(k, nil)`, and so does a run of its closure over the same visits in any other
order; `k` is a count a Go `int` can hold. -/
theorem countFiles_counts_non_directories (w : World) (directoryPath : Path) (k : Nat)
    (hfree : (w.nodeAt directoryPath).errorFree = true)
    (hk : (w.nodeAt directoryPath).nonDirCount = k)
    (hint : (k : Int) ≤ maxInt) :
    (countFiles w directoryPath).1 = ((k : Int), none) ∧
      ∀ vs : List Visit,
        vs.Perm ((w.nodeAt directoryPath).visits directoryPath.parts) →
          countVisits vs 0 = ((k : Int), none) := by
  subst hk
  refine ⟨?_, ?_⟩
  · exact countFilesAt_errorFree _ _ hfree hint
  · intro vs hperm
    exact countVisits_perm_errorFree _ _ hfree hint vs hperm

theorem countFiles_counts_non_directories_witness :
    ((sampleWorld ["app"] 5 0 none).nodeAt dataPath).errorFree = true ∧
      ((sampleWorld ["app"] 5 0 none).nodeAt dataPath).nonDirCount = 3 ∧
      (countFiles (sampleWorld ["app"] 5 0 none) dataPath).1 = (3, none) :=
  ⟨by decide, by decide,
    (countFiles_counts_non_directories (sampleWorld ["app"] 5 0 none) dataPath 3
      (by decide) (by decide) (by decide)).1⟩

/-- C6: when the walk of `countFiles` meets an entry reporting an error, after
any number of entries without one, `countFiles` returns the count 0 and that
error. -/
theorem countFiles_error_discards_count (w : World) (directoryPath : Path)
    (pre post : List Visit) (v : Visit) (e : Error)
    (hsplit : (w.nodeAt directoryPath).visits directoryPath.parts = pre ++ v :: post)
    (hpre : ∀ u ∈ pre, u.clean = true) (hv : v.err = some e) :
    (countFiles w directoryPath).1 = (0, some e) :=
  countFilesAt_first_error _ _ pre post v e hsplit hpre hv

theorem countFiles_error_discards_count_witness :
    (countFiles lockedWorld dataPath).1 = (0, some (.os .EACCES)) :=
  countFiles_error_discards_count lockedWorld dataPath
    [⟨["data"], some ⟨true⟩, none⟩, ⟨["data", "a"], some ⟨false⟩, none⟩,
      ⟨["data", "b"], some ⟨false⟩, none⟩]
    [⟨["data", "z"], some ⟨false⟩, none⟩]
    ⟨["data", "locked"], some ⟨true⟩, some (.os .EACCES)⟩ (.os .EACCES)
    (by decide) (by decide) rfl

/-! ## Repeated creation of one name -/

mutual
theorem FsNode.create_again : ∀ (t : FsNode) (parts : List String) (t1 : FsNode),
    t.create parts = .ok t1 → t1.create parts = .ok t1
  | .noStat e, parts, t1 => by simp [FsNode.create]
  | .file, [], t1 => by
    intro h
    simp only [FsNode.create, Except.ok.injEq] at h
    subst h
    rfl
  | .file, _ :: _, t1 => by simp [FsNode.create]
  | .dirErr _, [], t1 => by simp [FsNode.create]
  | .dirErr _, _ :: _, t1 => by simp [FsNode.create]
  | .dir _ _, [], t1 => by simp [FsNode.create]
  | .dir wr es, name :: rest, t1 => by
    intro h
    simp only [FsNode.create] at h
    cases hc : es.createIn wr name rest with
    | error e => rw [hc] at h; cases h
    | ok es1 =>
      rw [hc] at h
      simp only [Except.ok.injEq] at h
      subst h
      simp only [FsNode.create, FsEntries.createIn_again es wr name rest es1 hc]
theorem FsEntries.createIn_again : ∀ (es : FsEntries) (wr : Bool) (name : String)
    (rest : List String) (es1 : FsEntries),
    es.createIn wr name rest = .ok es1 → es1.createIn wr name rest = .ok es1
  | .nil, wr, name, [], es1 => by
    intro h
    simp only [FsEntries.createIn] at h
    cases wr with
    | false => simp at h
    | true =>
      simp only [if_true, Except.ok.injEq] at h
      subst h
      simp [FsEntries.createIn, FsNode.create]
  | .nil, wr, name, _ :: _, es1 => by simp [FsEntries.createIn]
  | .cons n node tl, wr, name, rest, es1 => by
    intro h
    simp only [FsEntries.createIn] at h
    by_cases hn : n = name
    · simp only [hn, if_true] at h
      cases hc : node.create rest with
      | error e => rw [hc] at h; cases h
      | ok node1 =>
        rw [hc] at h
        simp only [Except.ok.injEq] at h
        subst h
        simp only [FsEntries.createIn, if_true, FsNode.create_again node rest node1 hc]
    · simp only [hn, if_false] at h
      cases hc : tl.createIn wr name rest with
      | error e => rw [hc] at h; cases h
      | ok tl1 =>
        rw [hc] at h
        simp only [Except.ok.injEq] at h
        subst h
        simp only [FsEntries.createIn, hn, if_false,
          FsEntries.createIn_again tl wr name rest tl1 hc]
end

mutual
theorem FsNode.create_nonDirCount : ∀ (t : FsNode) (parts : List String) (t1 : FsNode),
    t.create parts = .ok t1 →
      t.nonDirCount ≤ t1.nonDirCount ∧ t1.nonDirCount ≤ t.nonDirCount + 1
  | .noStat e, parts, t1 => by simp [FsNode.create]
  | .file, [], t1 => by
    intro h
    simp only [FsNode.create, Except.ok.injEq] at h
    subst h
    simp
  | .file, _ :: _, t1 => by simp [FsNode.create]
  | .dirErr _, [], t1 => by simp [FsNode.create]
  | .dirErr _, _ :: _, t1 => by simp [FsNode.create]
  | .dir _ _, [], t1 => by simp [FsNode.create]
  | .dir wr es, name :: rest, t1 => by
    intro h
    simp only [FsNode.create] at h
    cases hc : es.createIn wr name rest with
    | error e => rw [hc] at h; cases h
    | ok es1 =>
      rw [hc] at h
      simp only [Except.ok.injEq] at h
      subst h
      simp only [FsNode.nonDirCount]
      exact FsEntries.createIn_nonDirCount es wr name rest es1 hc
theorem FsEntries.createIn_nonDirCount : ∀ (es : FsEntries) (wr : Bool) (name : String)
    (rest : List String) (es1 : FsEntries),
    es.createIn wr name rest = .ok es1 →
      es.nonDirCount ≤ es1.nonDirCount ∧ es1.nonDirCount ≤ es.nonDirCount + 1
  | .nil, wr, name, [], es1 => by
    intro h
    simp only [FsEntries.createIn] at h
    cases wr with
    | false => simp at h
    | true =>
      simp only [if_true, Except.ok.injEq] at h
      subst h
      simp [FsEntries.nonDirCount, FsNode.nonDirCount]
  | .nil, wr, name, _ :: _, es1 => by simp [FsEntries.createIn]
  | .cons n node tl, wr, name, rest, es1 => by
    intro h
    simp only [FsEntries.createIn] at h
    by_cases hn : n = name
    · simp only [hn, if_true] at h
      cases hc : node.create rest with
      | error e => rw [hc] at h; cases h
      | ok node1 =>
        rw [hc] at h
        simp only [Except.ok.injEq] at h
        subst h
        have := FsNode.create_nonDirCount node rest node1 hc
        simp only [FsEntries.nonDirCount]
        omega
    · simp only [hn, if_false] at h
      cases hc : tl.createIn wr name rest with
      | error e => rw [hc] at h; cases h
      | ok tl1 =>
        rw [hc] at h
        simp only [Except.ok.injEq] at h
        subst h
        have := FsEntries.createIn_nonDirCount tl wr name rest tl1 hc
        simp only [FsEntries.nonDirCount]
        omega
end

theorem osCreate_ok (w : World) (name : Path) (w1 : World)
    (h : osCreate w name = (none, w1)) :
    w.root.create (w.resolve name) = .ok w1.root ∧ w1.cwd = w.cwd := by
  unfold osCreate at h
  cases hc : w.root.create (w.resolve name) with
  | error e => rw [hc] at h; simp at h
  | ok r =>
    rw [hc] at h
    simp only [Prod.mk.injEq, true_and] at h
    subst h
    exact ⟨rfl, rfl⟩

theorem osCreate_again (w : World) (name : Path) (w1 : World)
    (h : osCreate w name = (none, w1)) :
    (osCreate w1 name).1 = none ∧ (osCreate w1 name).2.root = w1.root := by
  obtain ⟨h1, h2⟩ := osCreate_ok w name w1 h
  have h3 : w1.resolve name = w.resolve name := by
    unfold World.resolve
    rw [h2]
  have h4 := FsNode.create_again _ _ _ h1
  unfold osCreate
  rw [h3, h4]
  exact ⟨rfl, rfl⟩

/-- A loop of creations that succeeds leaves the file system its first
creation produced: every later call opens the entry the first one made. -/
theorem createLoop_root (n : Nat) (w : World) (h : (createLoop (n + 1) w).1 = none) :
    (createLoop (n + 1) w).2.root = (osCreate w fixedName).2.root := by
  induction n generalizing w with
  | zero =>
    simp only [createLoop] at h ⊢
    rcases hc : osCreate w ⟨false, ["filename"]⟩ with ⟨e, w1⟩
    have hc2 : osCreate w fixedName = (e, w1) := hc
    rw [hc] at h
    rw [hc2]
    cases e with
    | some err => rfl
    | none => rfl
  | succ n ih =>
    rw [createLoop] at h ⊢
    rcases hc : osCreate w ⟨false, ["filename"]⟩ with ⟨e, w1⟩
    have hc2 : osCreate w fixedName = (e, w1) := hc
    rw [hc] at h
    rw [hc2]
    cases e with
    | some err => cases h
    | none =>
      simp only at h ⊢
      rw [ih w1 h]
      exact (osCreate_again w fixedName w1 hc2).2

theorem createLoop_nonDirCount (n : Nat) (w : World) (h : (createLoop n w).1 = none) :
    (createLoop n w).2.root.nonDirCount ≤ w.root.nonDirCount + 1 := by
  cases n with
  | zero => simp [createLoop]
  | succ n =>
    rw [createLoop_root n w h]
    unfold osCreate
    cases hc : w.root.create (w.resolve fixedName) with
    | error e => simp [World.record]
    | ok r => exact (FsNode.create_nonDirCount _ _ _ hc).2

/-- Whatever the two counts are, a call of `manageFiles` that returns nil has
added at most one non-directory entry to the whole file system. -/
theorem manageFiles_adds_at_most_one (w : World) (directoryPath : Path)
    (numFiles maxFiles : Int)
    (h : (manageFiles w directoryPath numFiles maxFiles).1 = none) :
    (manageFiles w directoryPath numFiles maxFiles).2.root.nonDirCount ≤
      w.root.nonDirCount + 1 := by
  unfold manageFiles at h ⊢
  simp only at h ⊢
  by_cases h1 : numFiles > maxFiles
  · have h2 : ¬ numFiles < maxFiles := by omega
    simp only [h1, if_true, h2, if_false] at h ⊢
    rcases hc : createLoop (wrapInt (numFiles - maxFiles)).toNat
      (w.record (.manageFiles directoryPath numFiles maxFiles)) with ⟨e, w1⟩
    rw [hc] at h
    have h3 := createLoop_nonDirCount (wrapInt (numFiles - maxFiles)).toNat
      (w.record (.manageFiles directoryPath numFiles maxFiles))
    rw [hc] at h3
    cases e with
    | some err => cases h
    | none => exact h3 rfl
  · simp only [h1, if_false] at h ⊢
    by_cases h2 : numFiles < maxFiles
    · simp only [h2, if_true] at h ⊢
      exact createLoop_nonDirCount _ _ h
    · simp only [h2, if_false]
      simp [World.record]

theorem osCreate_nonDirCount_mono (w : World) (name : Path) :
    w.root.nonDirCount ≤ (osCreate w name).2.root.nonDirCount := by
  unfold osCreate
  cases hc : w.root.create (w.resolve name) with
  | error e => simp [World.record]
  | ok r => exact (FsNode.create_nonDirCount _ _ _ hc).1

theorem createLoop_nonDirCount_mono (n : Nat) (w : World) :
    w.root.nonDirCount ≤ (createLoop n w).2.root.nonDirCount := by
  induction n generalizing w with
  | zero => simp [createLoop]
  | succ n ih =>
    simp only [createLoop]
    have h := osCreate_nonDirCount_mono w ⟨false, ["filename"]⟩
    rcases hc : osCreate w ⟨false, ["filename"]⟩ with ⟨e, w1⟩
    rw [hc] at h
    cases e with
    | some err => exact h
    | none => exact le_trans h (ih w1)

/-- No call of `manageFiles` lowers the number of non-directory entries of the
file system. -/
theorem manageFiles_nonDirCount_mono (w : World) (directoryPath : Path)
    (numFiles maxFiles : Int) :
    w.root.nonDirCount ≤
      (manageFiles w directoryPath numFiles maxFiles).2.root.nonDirCount := by
  unfold manageFiles
  simp only
  by_cases h1 : numFiles > maxFiles
  · have h2 : ¬ numFiles < maxFiles := by omega
    simp only [h1, if_true, h2, if_false]
    have h3 := createLoop_nonDirCount_mono (wrapInt (numFiles - maxFiles)).toNat
      (w.record (.manageFiles directoryPath numFiles maxFiles))
    rcases hc : createLoop (wrapInt (numFiles - maxFiles)).toNat
      (w.record (.manageFiles directoryPath numFiles maxFiles)) with ⟨e, w1⟩
    rw [hc] at h3
    cases e <;> exact h3
  · simp only [h1, if_false]
    by_cases h2 : numFiles < maxFiles
    · simp only [h2, if_true]
      exact createLoop_nonDirCount_mono (wrapInt (maxFiles - numFiles)).toNat
        (w.record (.manageFiles directoryPath numFiles maxFiles))
    · simp only [h2, if_false]
      simp [World.record]

/-! ## The executor -/

/-- C10: when every file creation of the call succeeds, `manageFiles` returns
nil and what it does is exactly `|current - target|` calls of
`os.Create("filename")` and nothing else, in the surplus branch
(`current > target`) as in the other, and the file system holds no fewer
non-directory entries than before; the difference of the counts is one a Go
`int` can hold. -/
theorem manageFiles_creation_operations (w : World) (directoryPath : Path)
    (current target : Int)
    (hd : ((current - target).natAbs : Int) ≤ maxInt)
    (hok : ∀ name ok, Event.create name ok ∈
      (manageFiles w directoryPath current target).2.since w → ok = true) :
    (manageFiles w directoryPath current target).1 = none ∧
      (manageFiles w directoryPath current target).2.since w =
        .manageFiles directoryPath current target ::
          List.replicate (current - target).natAbs (.create fixedName true) ∧
      w.root.nonDirCount ≤
        (manageFiles w directoryPath current target).2.root.nonDirCount := by
  rcases manageFiles_trace w directoryPath current target hd with ⟨h1, h2⟩ | ⟨l, h1, h2⟩
  · exact ⟨h1, since_append _ _ _ h2, manageFiles_nonDirCount_mono _ _ _ _⟩
  · rw [since_append _ _ _ h1] at hok
    exact absurd (hok fixedName false h2) (by decide)

theorem manageFiles_creation_operations_witness :
    (manageFiles (sampleWorld ["app"] 3 0 none) dataPath 5 3).1 = none ∧
      (manageFiles (sampleWorld ["app"] 3 0 none) dataPath 5 3).2.since
          (sampleWorld ["app"] 3 0 none) =
        [.manageFiles dataPath 5 3, .create fixedName true, .create fixedName true] ∧
      (sampleWorld ["app"] 3 0 none).root.nonDirCount ≤
        (manageFiles (sampleWorld ["app"] 3 0 none) dataPath 5 3).2.root.nonDirCount :=
  manageFiles_creation_operations (sampleWorld ["app"] 3 0 none) dataPath 5 3 (by decide)
    (by
      intro name ok h
      have hs : (manageFiles (sampleWorld ["app"] 3 0 none) dataPath 5 3).2.since
          (sampleWorld ["app"] 3 0 none) =
        [.manageFiles dataPath 5 3, .create fixedName true, .create fixedName true] := by
        decide
      rw [hs] at h
      simp at h
      exact h.2)

/-- C2: at `(current = 3, target = 5)` every creation succeeds and
`manageFiles` returns nil, yet `/data` holds 3 non-directory entries afterwards
as before: both calls open the one name `filename` in the working directory
`/app`. With the working directory `/data` itself the count becomes 4. -/
theorem manageFiles_three_five_reuses_one_name :
    (manageFiles (sampleWorld ["app"] 5 0 none) dataPath 3 5).1 = none ∧
      (manageFiles (sampleWorld ["app"] 5 0 none) dataPath 3 5).2.since
          (sampleWorld ["app"] 5 0 none) =
        [.manageFiles dataPath 3 5, .create fixedName true, .create fixedName true] ∧
      ((sampleWorld ["app"] 5 0 none).nodeAt dataPath).nonDirCount = 3 ∧
      ((manageFiles (sampleWorld ["app"] 5 0 none) dataPath 3 5).2.nodeAt
          dataPath).nonDirCount = 3 ∧
      ((manageFiles (sampleWorld ["app"] 5 0 none) dataPath 3 5).2.nodeAt
          ⟨true, ["app"]⟩).nonDirCount = 1 ∧
      (manageFiles (sampleWorld ["data"] 5 0 none) dataPath 3 5).1 = none ∧
      ((manageFiles (sampleWorld ["data"] 5 0 none) dataPath 3 5).2.nodeAt
          dataPath).nonDirCount = 4 := by
  decide

/-! ## The reconciliation engine -/

/-- C3: in a pass whose fetch succeeds, whose measured count differs from
`maxFiles`, and whose correction and status update both succeed, the one status
update submitted carries the count `countFiles` returned before `manageFiles`
ran, and that count is what the store then holds. -/
theorem reconcile_persists_measured_count (w : World) (req : Request) (file : File)
    (numFiles : Int)
    (hget : (clientGet w req.namespacedName).1 = .ok file)
    (hcount : (countFiles (afterGet w req) file.spec.directoryPath).1 = (numFiles, none))
    (hne : numFiles ≠ file.spec.maxFiles)
    (hmanage : (manageFiles (afterCount w req file) file.spec.directoryPath numFiles
      file.spec.maxFiles).1 = none)
    (hupdate : (statusUpdate (afterManage w req file numFiles) req.namespacedName
      (withNumFiles file numFiles)).1 = none) :
    (Reconcile w req).1 = ({}, none) ∧
      (Reconcile w req).2.since (afterManage w req file numFiles) =
        [.statusUpdate req.namespacedName numFiles true] ∧
      (Reconcile w req).2.observed req.namespacedName = some numFiles := by
  rw [Reconcile_drift_ok w req file numFiles hget hcount hne hmanage]
  obtain ⟨h1, h2⟩ := statusUpdate_accepted _ _ _ hupdate
  exact ⟨by rw [hupdate], since_append _ _ _ h2, h1⟩

theorem reconcile_persists_measured_count_witness :
    (Reconcile (sampleWorld ["data"] 5 0 none) sampleReq).1 = ({}, none) ∧
      (Reconcile (sampleWorld ["data"] 5 0 none) sampleReq).2.since
          (afterManage (sampleWorld ["data"] 5 0 none) sampleReq ⟨⟨dataPath, 5⟩, ⟨0⟩⟩ 3) =
        [.statusUpdate "default/sample" 3 true] ∧
      (Reconcile (sampleWorld ["data"] 5 0 none) sampleReq).2.observed "default/sample" =
        some 3 ∧
      ((Reconcile (sampleWorld ["data"] 5 0 none) sampleReq).2.nodeAt dataPath).nonDirCount =
        4 :=
  ⟨(reconcile_persists_measured_count (sampleWorld ["data"] 5 0 none) sampleReq
      ⟨⟨dataPath, 5⟩, ⟨0⟩⟩ 3 rfl (by decide) (by decide) (by decide) (by decide)).1,
    (reconcile_persists_measured_count (sampleWorld ["data"] 5 0 none) sampleReq
      ⟨⟨dataPath, 5⟩, ⟨0⟩⟩ 3 rfl (by decide) (by decide) (by decide) (by decide)).2.1,
    (reconcile_persists_measured_count (sampleWorld ["data"] 5 0 none) sampleReq
      ⟨⟨dataPath, 5⟩, ⟨0⟩⟩ 3 rfl (by decide) (by decide) (by decide) (by decide)).2.2,
    by decide⟩

/-- C4: in a pass whose measured count equals `maxFiles`, `Reconcile` returns
the empty result and nil, and all it does is the fetch and the measurement:
`manageFiles` is not entered, no status update is submitted, the store and the
file system are as before. -/
theorem reconcile_equal_counts_no_action (w : World) (req : Request) (file : File)
    (hget : (clientGet w req.namespacedName).1 = .ok file)
    (hcount : (countFiles (afterGet w req) file.spec.directoryPath).1 =
      (file.spec.maxFiles, none)) :
    (Reconcile w req).1 = ({}, none) ∧
      (Reconcile w req).2.since w =
        [.get req.namespacedName, .countFiles file.spec.directoryPath] ∧
      (Reconcile w req).2.store = w.store ∧
      (Reconcile w req).2.root = w.root ∧
      (Reconcile w req).2.cwd = w.cwd := by
  rw [Reconcile_equal w req file hget hcount]
  unfold afterCount afterGet
  rw [countFiles_world, clientGet_world]
  refine ⟨rfl, since_append _ _ _ ?_, rfl, rfl, rfl⟩
  simp [World.record]

theorem reconcile_equal_counts_no_action_witness :
    (Reconcile (sampleWorld ["app"] 3 0 none) sampleReq).1 = ({}, none) ∧
      (Reconcile (sampleWorld ["app"] 3 0 none) sampleReq).2.since
          (sampleWorld ["app"] 3 0 none) =
        [.get "default/sample", .countFiles dataPath] ∧
      (Reconcile (sampleWorld ["app"] 3 0 none) sampleReq).2.store =
        (sampleWorld ["app"] 3 0 none).store ∧
      (Reconcile (sampleWorld ["app"] 3 0 none) sampleReq).2.root =
        (sampleWorld ["app"] 3 0 none).root ∧
      (Reconcile (sampleWorld ["app"] 3 0 none) sampleReq).2.cwd =
        (sampleWorld ["app"] 3 0 none).cwd :=
  reconcile_equal_counts_no_action (sampleWorld ["app"] 3 0 none) sampleReq
    ⟨⟨dataPath, 3⟩, ⟨0⟩⟩ rfl (by decide)

/-- C7: when the fetch answers NotFound, `Reconcile` returns the empty result
and nil, and the fetch is all it does: `countFiles` and `manageFiles` are not
entered, no status update is submitted, the store and the file system are as
before. -/
theorem reconcile_not_found_no_action (w : World) (req : Request)
    (hget : (clientGet w req.namespacedName).1 = .error (.api .notFound)) :
    (Reconcile w req).1 = ({}, none) ∧
      (Reconcile w req).2.since w = [.get req.namespacedName] ∧
      (Reconcile w req).2.store = w.store ∧
      (Reconcile w req).2.root = w.root ∧
      (Reconcile w req).2.cwd = w.cwd := by
  rw [Reconcile_get_error w req _ hget]
  unfold afterGet
  rw [clientGet_world]
  refine ⟨rfl, since_append _ _ _ rfl, rfl, rfl, rfl⟩

theorem reconcile_not_found_no_action_witness :
    (Reconcile emptyStoreWorld sampleReq).1 = ({}, none) ∧
      (Reconcile emptyStoreWorld sampleReq).2.since emptyStoreWorld =
        [.get "default/sample"] ∧
      (Reconcile emptyStoreWorld sampleReq).2.store = emptyStoreWorld.store ∧
      (Reconcile emptyStoreWorld sampleReq).2.root = emptyStoreWorld.root ∧
      (Reconcile emptyStoreWorld sampleReq).2.cwd = emptyStoreWorld.cwd :=
  reconcile_not_found_no_action emptyStoreWorld sampleReq rfl

/-- C9: in a pass whose counts differ, whose correction succeeds and whose
status update the store rejects, `Reconcile` returns the error of the update,
and the file system it leaves is the one `manageFiles` produced; after the
correction the pass does nothing but submit the rejected update. -/
theorem reconcile_rejected_update_keeps_files (w : World) (req : Request) (file : File)
    (numFiles : Int) (e : Error)
    (hget : (clientGet w req.namespacedName).1 = .ok file)
    (hcount : (countFiles (afterGet w req) file.spec.directoryPath).1 = (numFiles, none))
    (hne : numFiles ≠ file.spec.maxFiles)
    (hmanage : (manageFiles (afterCount w req file) file.spec.directoryPath numFiles
      file.spec.maxFiles).1 = none)
    (hupdate : (statusUpdate (afterManage w req file numFiles) req.namespacedName
      (withNumFiles file numFiles)).1 = some e) :
    (Reconcile w req).1 = ({}, some e) ∧
      (Reconcile w req).2.root = (afterManage w req file numFiles).root ∧
      (Reconcile w req).2.cwd = (afterManage w req file numFiles).cwd ∧
      (Reconcile w req).2.since (afterManage w req file numFiles) =
        [.statusUpdate req.namespacedName numFiles false] ∧
      (Reconcile w req).2.store = w.store := by
  rw [Reconcile_drift_ok w req file numFiles hget hcount hne hmanage]
  obtain ⟨h1, h2⟩ := statusUpdate_rejected _ _ _ e hupdate
  obtain ⟨h3, h4⟩ := statusUpdate_fs (afterManage w req file numFiles) req.namespacedName
    (withNumFiles file numFiles)
  refine ⟨by rw [hupdate], h3, h4, since_append _ _ _ h2, ?_⟩
  simp only
  rw [h1, (afterManage_frame w req file numFiles).1]

theorem reconcile_rejected_update_keeps_files_witness :
    (Reconcile (sampleWorld ["data"] 5 0 (some (.api .conflict))) sampleReq).1 =
        ({}, some (.api .conflict)) ∧
      ((Reconcile (sampleWorld ["data"] 5 0 (some (.api .conflict))) sampleReq).2.nodeAt
        ⟨true, ["data", "filename"]⟩).lstat = .ok ⟨false⟩ :=
  ⟨(reconcile_rejected_update_keeps_files (sampleWorld ["data"] 5 0 (some (.api .conflict)))
      sampleReq ⟨⟨dataPath, 5⟩, ⟨0⟩⟩ 3 (.api .conflict) rfl (by decide) (by decide)
      (by decide) (by decide)).1, rfl⟩

theorem statusUpdate_observed_after_pass (w : World) (req : Request) (file : File)
    (numFiles : Int)
    (hupdate : (statusUpdate (afterManage w req file numFiles) req.namespacedName
      (withNumFiles file numFiles)).1 = none) :
    (statusUpdate (afterManage w req file numFiles) req.namespacedName
      (withNumFiles file numFiles)).2.observed req.namespacedName = some numFiles :=
  (statusUpdate_accepted _ _ _ hupdate).1

/-- C8: `Reconcile` returns the error `e` exactly when one step fails with `e`:
the fetch, with an error other than NotFound; or `countFiles`; or, the counts
differing, `manageFiles`; or, the counts differing and the correction done,
the status update. In every other case it returns nil. -/
theorem reconcile_error_iff (w : World) (req : Request) (e : Error) :
    (Reconcile w req).1.2 = some e ↔
      ((clientGet w req.namespacedName).1 = .error e ∧ e ≠ .api .notFound) ∨
      (∃ file c, (clientGet w req.namespacedName).1 = .ok file ∧
        (countFiles (afterGet w req) file.spec.directoryPath).1 = (c, some e)) ∨
      (∃ file n, (clientGet w req.namespacedName).1 = .ok file ∧
        (countFiles (afterGet w req) file.spec.directoryPath).1 = (n, none) ∧
        n ≠ file.spec.maxFiles ∧
        (manageFiles (afterCount w req file) file.spec.directoryPath n
          file.spec.maxFiles).1 = some e) ∨
      (∃ file n, (clientGet w req.namespacedName).1 = .ok file ∧
        (countFiles (afterGet w req) file.spec.directoryPath).1 = (n, none) ∧
        n ≠ file.spec.maxFiles ∧
        (manageFiles (afterCount w req file) file.spec.directoryPath n
          file.spec.maxFiles).1 = none ∧
        (statusUpdate (afterManage w req file n) req.namespacedName
          (withNumFiles file n)).1 = some e) := by
  cases hg : (clientGet w req.namespacedName).1 with
  | error err =>
    rw [Reconcile_get_error w req err hg]
    simp only [ignoreNotFound]
    by_cases hnf : err = .api .notFound
    · simp only [hnf, if_true]
      constructor
      · intro h; cases h
      · rintro (⟨h1, h2⟩ | ⟨f, _, h1, _⟩ | ⟨f, _, h1, _⟩ | ⟨f, _, h1, _⟩)
        · cases h1
          exact absurd rfl h2
        · cases h1
        · cases h1
        · cases h1
    · simp only [hnf, if_false, Option.some.injEq]
      constructor
      · intro h; subst h; exact Or.inl ⟨rfl, hnf⟩
      · rintro (⟨h1, _⟩ | ⟨f, _, h1, _⟩ | ⟨f, _, h1, _⟩ | ⟨f, _, h1, _⟩)
        · cases h1
          rfl
        · cases h1
        · cases h1
        · cases h1
  | ok file =>
    rcases hc : (countFiles (afterGet w req) file.spec.directoryPath).1 with ⟨c, ce⟩
    cases ce with
    | some err =>
      rw [Reconcile_count_error w req file c err hg hc]
      constructor
      · intro h
        simp only [Option.some.injEq] at h
        subst h
        exact Or.inr (Or.inl ⟨file, c, rfl, hc⟩)
      · rintro (⟨h1, _⟩ | ⟨f, c2, h1, h2⟩ | ⟨f, n, h1, h2, _⟩ | ⟨f, n, h1, h2, _⟩)
        · cases h1
        · cases h1
          rw [hc] at h2
          simp only [Prod.mk.injEq, Option.some.injEq] at h2
          simp [h2.2]
        · cases h1
          rw [hc] at h2
          simp at h2
        · cases h1
          rw [hc] at h2
          simp at h2
    | none =>
      by_cases hne : c = file.spec.maxFiles
      · subst hne
        rw [Reconcile_equal w req file hg hc]
        constructor
        · intro h; cases h
        · rintro (⟨h1, _⟩ | ⟨f, c2, h1, h2⟩ | ⟨f, n, h1, h2, h3, _⟩ | ⟨f, n, h1, h2, h3, _⟩)
          · cases h1
          · cases h1
            rw [hc] at h2
            simp at h2
          · cases h1
            rw [hc] at h2
            simp only [Prod.mk.injEq, and_true] at h2
            exact absurd h2.symm h3
          · cases h1
            rw [hc] at h2
            simp only [Prod.mk.injEq, and_true] at h2
            exact absurd h2.symm h3
      · cases hm : (manageFiles (afterCount w req file) file.spec.directoryPath c
          file.spec.maxFiles).1 with
        | some err =>
          rw [Reconcile_manage_error w req file c err hg hc hne hm]
          constructor
          · intro h
            simp only [Option.some.injEq] at h
            subst h
            exact Or.inr (Or.inr (Or.inl ⟨file, c, rfl, hc, hne, hm⟩))
          · rintro (⟨h1, _⟩ | ⟨f, c2, h1, h2⟩ | ⟨f, n, h1, h2, _, h4⟩ | ⟨f, n, h1, h2, _, h4, _⟩)
            · cases h1
            · cases h1
              rw [hc] at h2
              simp at h2
            · cases h1
              rw [hc] at h2
              simp only [Prod.mk.injEq, and_true] at h2
              subst h2
              rw [hm] at h4
              exact h4
            · cases h1
              rw [hc] at h2
              simp only [Prod.mk.injEq, and_true] at h2
              subst h2
              rw [hm] at h4
              cases h4
        | none =>
          rw [Reconcile_drift_ok w req file c hg hc hne hm]
          constructor
          · intro h
            exact Or.inr (Or.inr (Or.inr ⟨file, c, rfl, hc, hne, hm, h⟩))
          · rintro (⟨h1, _⟩ | ⟨f, c2, h1, h2⟩ | ⟨f, n, h1, h2, _, h4⟩ | ⟨f, n, h1, h2, _, _, h5⟩)
            · cases h1
            · cases h1
              rw [hc] at h2
              simp at h2
            · cases h1
              rw [hc] at h2
              simp only [Prod.mk.injEq, and_true] at h2
              subst h2
              rw [hm] at h4
              cases h4
            · cases h1
              rw [hc] at h2
              simp only [Prod.mk.injEq, and_true] at h2
              subst h2
              exact h5

/-- C5, as the code has it: after a pass that found the resource and
returned nil, the store holds the count `countFiles` measured before the
correction when that count differed from `maxFiles`, and holds what it held
before the pass when the count equalled `maxFiles`. -/
theorem reconcile_observed_after_success (w : World) (req : Request) (file : File)
    (hget : (clientGet w req.namespacedName).1 = .ok file)
    (hnil : (Reconcile w req).1.2 = none) :
    ∃ n, (countFiles (afterGet w req) file.spec.directoryPath).1 = (n, none) ∧
      (n ≠ file.spec.maxFiles →
        (Reconcile w req).2.observed req.namespacedName = some n) ∧
      (n = file.spec.maxFiles → (Reconcile w req).2.store = w.store) := by
  rcases hc : (countFiles (afterGet w req) file.spec.directoryPath).1 with ⟨c, ce⟩
  cases ce with
  | some err =>
    rw [Reconcile_count_error w req file c err hget hc] at hnil
    cases hnil
  | none =>
    refine ⟨c, rfl, ?_, ?_⟩
    · intro hne
      cases hm : (manageFiles (afterCount w req file) file.spec.directoryPath c
          file.spec.maxFiles).1 with
      | some err =>
        rw [Reconcile_manage_error w req file c err hget hc hne hm] at hnil
        cases hnil
      | none =>
        rw [Reconcile_drift_ok w req file c hget hc hne hm] at hnil ⊢
        simp only at hnil ⊢
        exact statusUpdate_observed_after_pass w req file c hnil
    · intro heq
      subst heq
      rw [Reconcile_equal w req file hget hc]
      unfold afterCount afterGet
      rw [countFiles_world, clientGet_world]
      rfl

theorem reconcile_observed_after_success_witness :
    ∃ n, (countFiles (afterGet (sampleWorld ["data"] 5 0 none) sampleReq) dataPath).1 =
        (n, none) ∧
      (n ≠ 5 → (Reconcile (sampleWorld ["data"] 5 0 none) sampleReq).2.observed
        "default/sample" = some n) ∧
      (n = 5 → (Reconcile (sampleWorld ["data"] 5 0 none) sampleReq).2.store =
        (sampleWorld ["data"] 5 0 none).store) :=
  reconcile_observed_after_success (sampleWorld ["data"] 5 0 none) sampleReq
    ⟨⟨dataPath, 5⟩, ⟨0⟩⟩ rfl (by decide)

/-- C5 fails when nothing needs correcting: with 3 entries in `/data`,
`maxFiles = 3` and a stored count of 0, the pass finds the resource and returns
nil, and the store still holds 0 while `/data` holds 3 non-directory entries. -/
theorem reconcile_observed_stale :
    (clientGet (sampleWorld ["app"] 3 0 none) sampleReq.namespacedName).1 =
        .ok ⟨⟨dataPath, 3⟩, ⟨0⟩⟩ ∧
      (Reconcile (sampleWorld ["app"] 3 0 none) sampleReq).1 = ({}, none) ∧
      (Reconcile (sampleWorld ["app"] 3 0 none) sampleReq).2.observed "default/sample" =
        some 0 ∧
      ((Reconcile (sampleWorld ["app"] 3 0 none) sampleReq).2.nodeAt dataPath).nonDirCount =
        3 ∧
      (Reconcile (sampleWorld ["app"] 3 0 none) sampleReq).2.observed "default/sample" ≠
        some (((Reconcile (sampleWorld ["app"] 3 0 none) sampleReq).2.nodeAt
          dataPath).nonDirCount : Int) :=
  ⟨rfl, by decide, by decide, by decide, by decide⟩

end FileController
